import Mathlib

/-!
# Verification of the ART trajectory-gathering engine

Shallow embedding of the trajectory-gathering concurrency core of the ART
repository:

* `src/art/trajectories.py` — `Trajectory`, `TrajectoryGroup`, and the
  pending-group resolution loop inside `TrajectoryGroup.__new__`;
* `src/art/gather_trajectories.py` — `record_metrics`,
  `GroupsContext.update_pbar`, `wrap_coroutine`, and the progress-total
  computation in `gather_trajectories`.

Python `dict`s are modelled as insertion-ordered association lists,
`collections.Counter` as an association list with a default of integer `0`,
and Python numbers (`int` / `float`) as a tagged sum `PyNum` over `ℤ` / `ℚ`
(`float` arithmetic is modelled exactly over `ℚ`).

The repository's `art/gather.py` (the `GatherContext` with its
`max_exceptions` field and `too_many_exceptions` method, and the top-level
`gather_trajectory_groups` orchestration) is not among the provided sources —
only its caller `trajectories.py` and the structurally parallel
`gather_trajectories.py` are. Those missing pieces are modelled from the
spec, and each such definition is marked `Modelled from the spec:` in its
doc comment.

Concurrency is modelled by the completion-order event sequence: cooperative
single-threaded scheduling means a resolution run is fully described by the
order in which its rollouts settle, so the resolution loop is a fold over
the list of rollout outcomes in completion order.
-/

/-- Python numeric value: an `int` or a `float`. `float` arithmetic is
modelled exactly over `ℚ`. -/
inductive PyNum where
  | i : ℤ → PyNum
  | f : ℚ → PyNum
deriving DecidableEq, Repr

/-- Numeric value of a `PyNum`. -/
def PyNum.toRat : PyNum → ℚ
  | .i n => (n : ℚ)
  | .f q => q

/-- Python `+` on numbers: `int + int` is an `int`, any operand being a
`float` makes the result a `float`. -/
def PyNum.add : PyNum → PyNum → PyNum
  | .i a, .i b => .i (a + b)
  | .i a, .f b => .f ((a : ℚ) + b)
  | .f a, .i b => .f (a + (b : ℚ))
  | .f a, .f b => .f (a + b)

/-- Python `int(x)` on a number: truncation toward zero. -/
def pyTrunc (q : ℚ) : ℤ :=
  if 0 ≤ q then ⌊q⌋ else ⌈q⌉

/-- Insertion-ordered mapping (a Python `dict` built by the program; keys
are unique in any dict the program actually constructs). -/
abbrev PyDict (α : Type) := List (String × α)

/-- Lookup `d[k]` returning the first binding of `k`, if any. -/
def dictGet? {α : Type} (d : PyDict α) (k : String) : Option α :=
  match d with
  | [] => none
  | (k', v) :: rest => if k' = k then some v else dictGet? rest k

/-- Python `d[k] = v`: overwrite the existing binding in place, or append a
new binding at the end (dict insertion order). -/
def dictSet {α : Type} (d : PyDict α) (k : String) (v : α) : PyDict α :=
  match d with
  | [] => [(k, v)]
  | (k', v') :: rest =>
      if k' = k then (k', v) :: rest else (k', v') :: dictSet rest k v

/-- The keys of a dict, in order. -/
def dictKeys {α : Type} (d : PyDict α) : List String := d.map Prod.fst

/-- Entry lookup on a `collections.Counter`: a missing key reads as integer 0. -/
def counterGet (c : PyDict PyNum) (k : String) : PyNum :=
  (dictGet? c k).getD (.i 0)

/-- Update `c[k] += v` on a `Counter`: read (default integer 0), add, store. -/
def counterAdd (c : PyDict PyNum) (k : String) (v : PyNum) : PyDict PyNum :=
  dictSet c k ((counterGet c k).add v)

/-- Natural-number `Counter` entry lookup (for `metric_divisors`, which only
ever receives unit increments). -/
def counterGetNat (c : PyDict ℕ) (k : String) : ℕ :=
  (dictGet? c k).getD 0

/-- Update `c[k] += 1` on a natural-number `Counter`. -/
def counterBump (c : PyDict ℕ) (k : String) : PyDict ℕ :=
  dictSet c k (counterGetNat c k + 1)

/-- The `logprobs` payload of an OpenAI `Choice`: token lists for `content` and
`refusal` (`None` or a list of tokens). -/
structure ChoiceLogprobs where
  content : Option (List String)
  refusal : Option (List String)
deriving DecidableEq, Repr

/-- Token count `len(l.content or l.refusal or [])`: Python `or` takes the first truthy
operand, so an empty list falls through like `None` does. -/
def ChoiceLogprobs.tokenLen (l : ChoiceLogprobs) : ℕ :=
  match l.content with
  | some (x :: xs) => (x :: xs).length
  | _ =>
      match l.refusal with
      | some (y :: ys) => (y :: ys).length
      | _ => 0

/-- One entry of `messages_and_choices`: either a plain message (opaque to
the engine) or an OpenAI `Choice` with an optional `logprobs` payload. -/
inductive MessageOrChoice where
  | message : MessageOrChoice
  | choice : Option ChoiceLogprobs → MessageOrChoice
deriving DecidableEq, Repr

/-- Metadata values, `MetadataValue = float | int | str | bool | None`
(`src/art/trajectories.py`). -/
inductive MetadataValue where
  | num : PyNum → MetadataValue
  | str : String → MetadataValue
  | bool : Bool → MetadataValue
  | none : MetadataValue
deriving DecidableEq, Repr

/-- The `Trajectory` record (`src/art/trajectories.py`): conversation trace, scalar
reward, metrics map, metadata map. -/
structure Trajectory where
  messages_and_choices : List MessageOrChoice
  reward : ℚ
  metrics : PyDict ℚ
  metadata : PyDict MetadataValue
deriving DecidableEq, Repr

/-- A captured rollout failure (`BaseException`), opaque but comparable. -/
structure Exc where
  msg : String
deriving DecidableEq, Repr

/-- The `TrajectoryGroup` record (`src/art/trajectories.py`): collected trajectories,
caller-supplied metadata, captured per-rollout failures. -/
structure TrajectoryGroup where
  trajectories : List Trajectory
  metadata : PyDict MetadataValue
  exceptions : List Exc
deriving DecidableEq, Repr

/-- The per-gather-call context. The counters, progress state and
`update_pbar` follow `GroupsContext` in `src/art/gather_trajectories.py`
(the `tqdm` progress bar is modelled by its counter `pbar_n` and fixed
`pbar_total`). The `max_exceptions` field belongs to the `GatherContext` of
the repository's `art/gather.py`, which is not among the provided sources
(only its caller `trajectories.py` is); it is modelled from the spec: an
absolute integer count or a fractional ratio in (0,1) of the total rollout
count tolerated before abort, default 0. -/
structure GatherContext where
  pbar_n : ℕ
  pbar_total : ℕ
  metric_sums : PyDict PyNum
  metric_divisors : PyDict ℕ
  max_exceptions : ℚ
deriving DecidableEq, Repr

/-- A fresh context at the start of one gather call. -/
def GatherContext.init (total : ℕ) (maxExc : ℚ) : GatherContext :=
  { pbar_n := 0
    pbar_total := total
    metric_sums := []
    metric_divisors := []
    max_exceptions := maxExc }

/-- The displayed value of one postfix entry in
`GroupsContext.update_pbar` (`src/art/gather_trajectories.py`):
`divisor = max(1, metric_divisors[metric])`, then `int(sum / divisor)` when
the running sum is an `int` and `sum / divisor` otherwise (Python `/` is
true division; `int(...)` truncates toward zero). -/
def displayedValue (s : PyNum) (divCount : ℕ) : PyNum :=
  let divisor : ℕ := max 1 divCount
  match s with
  | .i z => .i (pyTrunc ((z : ℚ) / (divisor : ℚ)))
  | .f q => .f (q / (divisor : ℚ))

/-- Removal of every binding of a key, preserving the order of the rest
(`dict.pop(key)`; keys are unique in any dict the program builds). -/
def dictRemove {α : Type} (d : PyDict α) (k : String) : PyDict α :=
  match d with
  | [] => []
  | (k', v') :: rest =>
      if k' = k then dictRemove rest k else (k', v') :: dictRemove rest k

/-- Reinsertion `postfix[key] = postfix.pop(key)`: remove the binding of `key` (if any)
and re-insert it at the end. -/
def moveKeyToEnd {α : Type} (d : PyDict α) (k : String) : PyDict α :=
  match dictGet? d k with
  | none => d
  | some v => dictRemove d k ++ [(k, v)]

/-- The reordering loop at the end of `update_pbar`: the three token-count
keys are moved to the end of the displayed ordering, in this order. -/
def reorderPostfix (d : PyDict PyNum) : PyDict PyNum :=
  moveKeyToEnd
    (moveKeyToEnd (moveKeyToEnd d "prompt_tokens") "completion_tokens")
    "total_completion_tokens"

/-- The postfix snapshot built by `update_pbar`: one displayed running
average per key of `metric_sums`, token-count keys moved to the end. -/
def pbarPostfix (ctx : GatherContext) : PyDict PyNum :=
  reorderPostfix
    (ctx.metric_sums.map fun kv =>
      (kv.1, displayedValue kv.2 (counterGetNat ctx.metric_divisors kv.1)))

/-- The method `GroupsContext.update_pbar(n)` (`src/art/gather_trajectories.py`,
lines 163–181): advance the progress bar by `n`, then set its postfix to
the snapshot of running metric averages. Returns the updated context and
the snapshot that was displayed. -/
def GatherContext.update_pbar (ctx : GatherContext) (n : ℕ) :
    GatherContext × PyDict PyNum :=
  ({ ctx with pbar_n := ctx.pbar_n + n }, pbarPostfix ctx)

/-- The log-prob-bearing entries of a trajectory's `messages_and_choices`:
entries that are `Choice`s whose `logprobs` field is set (a non-`None`
object is truthy). -/
def logprobsOf (t : Trajectory) : List ChoiceLogprobs :=
  t.messages_and_choices.filterMap fun mc =>
    match mc with
    | .choice (some l) => some l
    | _ => none

/-- The first half of `record_metrics` (`src/art/gather_trajectories.py`,
lines 138–147): when the trajectory carries log-prob data, write
`trajectory.metrics["completion_tokens"] = sum(token lengths) / len(logprobs)`
into the trajectory's own metrics map (Python mutates the trajectory in
place; we return the mutated value). -/
def deriveCompletionTokens (t : Trajectory) : Trajectory :=
  let ls := logprobsOf t
  if ls.isEmpty then t
  else
    { t with
        metrics :=
          dictSet t.metrics "completion_tokens"
            (((ls.map ChoiceLogprobs.tokenLen).sum : ℚ) / (ls.length : ℚ)) }

/-- The function `record_metrics(context, trajectory)` (`src/art/gather_trajectories.py`,
lines 137–151): derive the completion-token metric when log-prob data is
present, then `metric_sums["reward"] += trajectory.reward`,
`metric_divisors["reward"] += 1`, `metric_sums.update(trajectory.metrics)`
(adding each value) and `metric_divisors.update(trajectory.metrics.keys())`
(adding one per key). Returns the updated context and the (possibly
mutated) trajectory object. -/
def record_metrics (ctx : GatherContext) (t : Trajectory) :
    GatherContext × Trajectory :=
  let t' := deriveCompletionTokens t
  let sums := counterAdd ctx.metric_sums "reward" (.f t'.reward)
  let divs := counterBump ctx.metric_divisors "reward"
  let sums := t'.metrics.foldl (fun s kv => counterAdd s kv.1 (.f kv.2)) sums
  let divs := t'.metrics.foldl (fun d kv => counterBump d kv.1) divs
  ({ ctx with metric_sums := sums, metric_divisors := divs }, t')

/-- Modelled from the spec: `GatherContext.too_many_exceptions` lives in the
repository's `art/gather.py`, which is not among the provided sources.
§4.3: the decision rule evaluated after each new failure is
`exception_count > max_exceptions` for an absolute bound and
`exception_count / total > max_exceptions` for a fractional bound in (0,1);
the observed exception count is the context's `metric_sums["exceptions"]`
counter (the one `trajectories.py` increments). -/
def GatherContext.too_many_exceptions (ctx : GatherContext) : Bool :=
  let c : ℚ := (counterGet ctx.metric_sums "exceptions").toRat
  if 0 < ctx.max_exceptions ∧ ctx.max_exceptions < 1 then
    decide (c / (ctx.pbar_total : ℚ) > ctx.max_exceptions)
  else
    decide (c > ctx.max_exceptions)

/-- The outcome a rollout's awaitable settles to: one `Trajectory`, or a
raised exception. -/
inductive RolloutOutcome where
  | success : Trajectory → RolloutOutcome
  | failure : Exc → RolloutOutcome
deriving DecidableEq, Repr

/-- The successful trajectory of an outcome, if any. -/
def RolloutOutcome.success? : RolloutOutcome → Option Trajectory
  | .success t => some t
  | .failure _ => none

/-- The mutable state of one resolving group: the `trajectories` and
`exceptions` lists built by the loop in `TrajectoryGroup.__new__`
(`src/art/trajectories.py`), the group's metadata, and whether the loop has
aborted (re-raised after a failed budget check). -/
structure GroupState where
  trajectories : List Trajectory
  exceptions : List Exc
  metadata : PyDict MetadataValue
  aborted : Bool
deriving DecidableEq, Repr

/-- The group state at the start of resolution: no trajectories collected,
`exceptions = exceptions.copy()` of the constructor argument. -/
def GroupState.start (metadata : PyDict MetadataValue) (initExc : List Exc) :
    GroupState :=
  { trajectories := [], exceptions := initExc, metadata := metadata
    aborted := false }

/-- One iteration of the resolution loop in `TrajectoryGroup.__new__`
(`src/art/trajectories.py`, lines 83–96), processing the next rollout to
settle (the loop iterates `asyncio.as_completed`, so outcomes arrive in
completion order). On success: append the trajectory, `record_metrics`
(which may mutate the appended object in place), `update_pbar(n=1)`. On
failure: append the exception, `metric_sums["exceptions"] += 1`,
`update_pbar(n=0)`, and re-raise — aborting the group — when
`too_many_exceptions()`. An aborted group processes no further outcomes. -/
def resolveStep (s : GatherContext × GroupState) (o : RolloutOutcome) :
    GatherContext × GroupState :=
  let (ctx, g) := s
  if g.aborted then (ctx, g)
  else
    match o with
    | .success t =>
        let (ctx, t') := record_metrics ctx t
        ((ctx.update_pbar 1).1,
          { g with trajectories := g.trajectories ++ [t'] })
    | .failure e =>
        let g := { g with exceptions := g.exceptions ++ [e] }
        let ctx :=
          { ctx with
              metric_sums := counterAdd ctx.metric_sums "exceptions" (.i 1) }
        let ctx := (ctx.update_pbar 0).1
        if ctx.too_many_exceptions then (ctx, { g with aborted := true })
        else (ctx, g)

/-- Resolution of one pending group: fold the loop body over the rollout
outcomes in completion order. -/
def resolveGroup (ctx : GatherContext) (metadata : PyDict MetadataValue)
    (initExc : List Exc) (outcomes : List RolloutOutcome) :
    GatherContext × GroupState :=
  outcomes.foldl resolveStep (ctx, GroupState.start metadata initExc)

/-- The attribute `_num_trajectories` (`src/art/trajectories.py`, line 104): the declared
size attached to a pending group's coroutine is `len(ts)`, the number of
awaitables it was constructed from — in the model, the number of outcomes
they settle to. -/
def pendingNumTrajectories (outcomes : List RolloutOutcome) : ℕ :=
  outcomes.length

/-- The synchronous `TrajectoryGroup` construction path
(`src/art/trajectories.py`, lines 60–75): when every element of `ts` is an
already-resolved `Trajectory`, `__new__` builds the group directly from the
given lists and returns it. The ambient gather context is threaded through
untouched — this path neither reads nor writes it. -/
def TrajectoryGroup.construct (ctx : GatherContext) (ts : List Trajectory)
    (metadata : PyDict MetadataValue) (exceptions : List Exc) :
    TrajectoryGroup × GatherContext :=
  ({ trajectories := ts, metadata := metadata, exceptions := exceptions }, ctx)

/-- The state of one gather call: the shared per-call context and the state
of each group, indexed by position in the input iterable. -/
structure GatherState where
  ctx : GatherContext
  groups : List GroupState
deriving DecidableEq, Repr

/-- One scheduler event of a gather call: rollout number `i` of group
`ev.1` settles with outcome `ev.2`. Under single-threaded cooperative
scheduling a whole gather call is described by the interleaved sequence of
such events (§5); each event runs the containing group's loop body once.
An event for an index with no group, or for a group that has already
aborted, settles a rollout nobody is awaiting any more and changes
nothing. -/
def gatherStep (s : GatherState) (ev : ℕ × RolloutOutcome) : GatherState :=
  match s.groups.get? ev.1 with
  | none => s
  | some g =>
      let (ctx, g') := resolveStep (s.ctx, g) ev.2
      { ctx := ctx, groups := s.groups.set ev.1 g' }

/-- Modelled from the spec: the initial state of `gather_trajectory_groups`
(in the repository's `art/gather.py`, not among the provided sources).
§4.4: one fresh shared `GatherContext` per call, with the progress total
computed up front, and every group starting empty with its caller-supplied
metadata and (per the `trajectories.py` constructor) a copy of its initial
exceptions list. -/
def gatherInit (metas : List (PyDict MetadataValue × List Exc)) (total : ℕ)
    (maxExc : ℚ) : GatherState :=
  { ctx := GatherContext.init total maxExc
    groups := metas.map fun m => GroupState.start m.1 m.2 }

/-- A whole gather call: fold the scheduler events, in the order the
rollouts settle, over the initial state. -/
def runGather (init : GatherState) (events : List (ℕ × RolloutOutcome)) :
    GatherState :=
  events.foldl gatherStep init

/-- Modelled from the spec: the returned list of `gather_trajectory_groups`
(in the repository's `art/gather.py`, not among the provided sources).
§4.4: the groups that reached a terminal non-aborted state, each built by
the synchronous `TrajectoryGroup` constructor from its collected lists, in
the same relative order as the input iterable; aborted groups are simply
omitted. -/
def gatherResult (s : GatherState) : List TrajectoryGroup :=
  s.groups.filterMap fun g =>
    if g.aborted then none
    else
      some
        { trajectories := g.trajectories, metadata := g.metadata
          exceptions := g.exceptions }

/-- One element of the `groups` argument of `gather_trajectories`
(`src/art/gather_trajectories.py`): either a bare rollout coroutine or an
iterable of rollout coroutines (a coroutine modelled by the outcome it
settles to). -/
inductive GTInput where
  | coro : RolloutOutcome → GTInput
  | iter : List RolloutOutcome → GTInput
deriving DecidableEq, Repr

/-- Normalization `groups = [list([g] if isinstance(g, Coroutine) else g) for g in groups]`
(`src/art/gather_trajectories.py`, line 63): a bare coroutine becomes a
one-element group. -/
def normalizeGroups (gs : List GTInput) : List (List RolloutOutcome) :=
  gs.map fun g =>
    match g with
    | .coro c => [c]
    | .iter l => l

/-- The total `total = sum(len(g) for g in groups)`
(`src/art/gather_trajectories.py`, line 64): the progress denominator,
computed before any rollout is started. -/
def gatherTotal (gs : List GTInput) : ℕ :=
  ((normalizeGroups gs).map List.length).sum

/-- Modelled from the spec: one element of a `gather_trajectory_groups`
input (in the repository's `art/gather.py`, not among the provided
sources) — a pending-group handle carrying its declared `_num_trajectories`
count, an already-resolved group, or a bare rollout coroutine. -/
inductive GroupInput where
  | pending : List RolloutOutcome → GroupInput
  | resolved : TrajectoryGroup → GroupInput
  | rollout : RolloutOutcome → GroupInput
deriving DecidableEq, Repr

/-- Modelled from the spec: the size one input group contributes to the
progress total (§4.4) — the declared size for a pending group, the actual
size for an already-resolved group, one for a bare rollout coroutine. -/
def GroupInput.declaredSize : GroupInput → ℕ
  | .pending outcomes => pendingNumTrajectories outcomes
  | .resolved g => g.trajectories.length
  | .rollout _ => 1

/-- Modelled from the spec: the overall progress denominator of one
`gather_trajectory_groups` call, computed before any resolution begins as
the sum of the groups' sizes (§4.4). -/
def gatherGroupsTotal (gs : List GroupInput) : ℕ :=
  (gs.map GroupInput.declaredSize).sum

/-- Metric recording over a whole sequence of successfully resolved
trajectories: `record_metrics` applied to each in turn, as the resolution
loops do. -/
def recordFold (ctx : GatherContext) (ts : List Trajectory) : GatherContext :=
  ts.foldl (fun c t => (record_metrics c t).1) ctx

/-- The values a metric key receives from a sequence of recorded
trajectories, one per trajectory that carries the key: every trajectory
carries `reward` (recorded from its `reward` field), and any other key is
carried exactly by the trajectories whose metrics map (after the
completion-token derivation) binds it. -/
def reportedValues (k : String) (ts : List Trajectory) : List ℚ :=
  ts.filterMap fun t =>
    if k = "reward" then some t.reward
    else dictGet? (deriveCompletionTokens t).metrics k

/-- The number of rollout outcomes a resolution run actually consumes
before (if ever) the group aborts: an aborted group stops processing, so
later completions are not settled by this group's loop. -/
def settledCount (s : GatherContext × GroupState) :
    List RolloutOutcome → ℕ
  | [] => 0
  | o :: os =>
      if s.2.aborted then 0 else 1 + settledCount (resolveStep s o) os

/-! ## Sample values used to instantiate the theorems -/

/-- A trajectory with no `Choice` entries (hence no log-prob data). -/
def tPlain (r : ℚ) (metrics : PyDict ℚ) : Trajectory :=
  { messages_and_choices := [.message], reward := r, metrics := metrics
    metadata := [] }

/-- A trajectory whose single `Choice` carries log-prob data with one
content token. -/
def tLogprob : Trajectory :=
  { messages_and_choices := [.choice (some { content := some ["a"], refusal := none })]
    reward := 0, metrics := [], metadata := [] }

/-- A sample captured failure. -/
def eBoom : Exc := { msg := "boom" }

/-! ## Association-list and counter lemmas -/

theorem dictGet?_dictSet_self {α : Type} (d : PyDict α) (k : String) (v : α) :
    dictGet? (dictSet d k v) k = some v := by
  induction d with
  | nil => simp [dictGet?, dictSet]
  | cons kv rest ih =>
      by_cases h : kv.1 = k
      · simp [dictGet?, dictSet, h]
      · simp [dictGet?, dictSet, h, ih]

theorem dictGet?_dictSet_ne {α : Type} (d : PyDict α) (k k' : String) (v : α)
    (h : k' ≠ k) : dictGet? (dictSet d k v) k' = dictGet? d k' := by
  induction d with
  | nil =>
      simp only [dictSet, dictGet?]
      rw [if_neg fun h' => h h'.symm]
  | cons kv rest ih =>
      by_cases hk : kv.1 = k
      · have hne : kv.1 ≠ k' := fun h' => h (h'.symm.trans hk)
        simp only [dictSet, if_pos hk]
        simp [dictGet?, hne]
      · simp only [dictSet, if_neg hk]
        by_cases hk' : kv.1 = k'
        · simp [dictGet?, hk']
        · simp [dictGet?, hk', ih]

theorem counterGet_counterAdd_self (c : PyDict PyNum) (k : String) (v : PyNum) :
    counterGet (counterAdd c k v) k = (counterGet c k).add v := by
  simp [counterGet, counterAdd, dictGet?_dictSet_self]

theorem counterGet_counterAdd_ne (c : PyDict PyNum) (k k' : String) (v : PyNum)
    (h : k' ≠ k) : counterGet (counterAdd c k v) k' = counterGet c k' := by
  simp [counterGet, counterAdd, dictGet?_dictSet_ne _ _ _ _ h]

theorem counterGetNat_counterBump_self (c : PyDict ℕ) (k : String) :
    counterGetNat (counterBump c k) k = counterGetNat c k + 1 := by
  simp [counterGetNat, counterBump, dictGet?_dictSet_self]

theorem counterGetNat_counterBump_ne (c : PyDict ℕ) (k k' : String)
    (h : k' ≠ k) : counterGetNat (counterBump c k) k' = counterGetNat c k' := by
  simp [counterGetNat, counterBump, dictGet?_dictSet_ne _ _ _ _ h]

theorem dictGet?_dictRemove_ne {α : Type} (d : PyDict α) (k₀ k : String)
    (h : k ≠ k₀) : dictGet? (dictRemove d k₀) k = dictGet? d k := by
  induction d with
  | nil => simp [dictGet?, dictRemove]
  | cons kv rest ih =>
      have h' : k₀ ≠ k := fun hh => h hh.symm
      by_cases h₀ : kv.1 = k₀
      · have hne : kv.1 ≠ k := fun hk => h (hk ▸ h₀)
        simp [dictGet?, dictRemove, h₀, hne, h', ih]
      · by_cases hk : kv.1 = k
        · simp [dictGet?, dictRemove, h₀, hk, h, ih]
        · simp [dictGet?, dictRemove, h₀, hk, ih]

theorem dictGet?_dictRemove_self {α : Type} (d : PyDict α) (k₀ : String) :
    dictGet? (dictRemove d k₀) k₀ = none := by
  induction d with
  | nil => simp [dictGet?, dictRemove]
  | cons kv rest ih =>
      by_cases h₀ : kv.1 = k₀
      · simp [dictRemove, h₀, ih]
      · simp [dictGet?, dictRemove, h₀, ih]

theorem dictGet?_append_none {α : Type} (d₁ d₂ : PyDict α) (k : String)
    (h : dictGet? d₁ k = none) : dictGet? (d₁ ++ d₂) k = dictGet? d₂ k := by
  induction d₁ with
  | nil => simp
  | cons kv rest ih =>
      by_cases hk : kv.1 = k
      · simp [dictGet?, hk] at h
      · simp only [dictGet?, hk, if_false] at h
        simp only [List.cons_append]
        simp [dictGet?, hk, ih h]

theorem dictGet?_append {α : Type} (d₁ d₂ : PyDict α) (k : String) :
    dictGet? (d₁ ++ d₂) k =
      ((dictGet? d₁ k).rec (dictGet? d₂ k) fun v => some v) := by
  induction d₁ with
  | nil => simp [dictGet?]
  | cons kv rest ih =>
      by_cases hk : kv.1 = k
      · simp [dictGet?, hk]
      · simp [dictGet?, hk, ih]

theorem dictGet?_mapVal {α β : Type} (g : String → α → β) (d : PyDict α)
    (k : String) :
    dictGet? (d.map fun kv => (kv.1, g kv.1 kv.2)) k =
      (dictGet? d k).map (g k) := by
  induction d with
  | nil => simp [dictGet?]
  | cons kv rest ih =>
      by_cases hk : kv.1 = k
      · simp [dictGet?, hk]
      · simp [dictGet?, hk, ih]

theorem dictGet?_moveKeyToEnd {α : Type} (d : PyDict α) (k₀ k : String) :
    dictGet? (moveKeyToEnd d k₀) k = dictGet? d k := by
  unfold moveKeyToEnd
  cases hv : dictGet? d k₀ with
  | none => rfl
  | some v =>
      by_cases hk : k = k₀
      · subst hk
        rw [dictGet?_append_none _ _ _ (dictGet?_dictRemove_self d k), hv]
        simp [dictGet?]
      · rw [dictGet?_append, dictGet?_dictRemove_ne d k₀ k hk]
        cases hd : dictGet? d k with
        | none =>
            have h' : k₀ ≠ k := fun hh => hk hh.symm
            simp [dictGet?, h']
        | some w => rfl

theorem dictGet?_reorderPostfix (d : PyDict PyNum) (k : String) :
    dictGet? (reorderPostfix d) k = dictGet? d k := by
  unfold reorderPostfix
  rw [dictGet?_moveKeyToEnd, dictGet?_moveKeyToEnd, dictGet?_moveKeyToEnd]

theorem pbarPostfix_get (ctx : GatherContext) (k : String) :
    dictGet? (pbarPostfix ctx) k =
      (dictGet? ctx.metric_sums k).map
        fun s => displayedValue s (counterGetNat ctx.metric_divisors k) := by
  unfold pbarPostfix
  rw [dictGet?_reorderPostfix,
    dictGet?_mapVal fun k s => displayedValue s (counterGetNat ctx.metric_divisors k)]

/-! ## Structural facts about one resolution step -/

theorem resolveStep_of_aborted (ctx : GatherContext) (g : GroupState)
    (o : RolloutOutcome) (h : g.aborted = true) :
    resolveStep (ctx, g) o = (ctx, g) := by
  simp [resolveStep, h]

theorem resolveStep_aborted_sticky (s : GatherContext × GroupState)
    (o : RolloutOutcome) (h : s.2.aborted = true) :
    (resolveStep s o).2.aborted = true := by
  rw [show s = (s.1, s.2) from rfl, resolveStep_of_aborted _ _ _ h]
  exact h

theorem resolveStep_metadata (s : GatherContext × GroupState)
    (o : RolloutOutcome) : (resolveStep s o).2.metadata = s.2.metadata := by
  obtain ⟨ctx, g⟩ := s
  by_cases h : g.aborted
  · rw [resolveStep_of_aborted _ _ _ h]
  · cases o with
    | success t => simp [resolveStep, h]
    | failure e =>
        simp only [resolveStep, h, if_false, Bool.false_eq_true]
        split <;> rfl

theorem record_metrics_pbar_fields (ctx : GatherContext) (t : Trajectory) :
    (record_metrics ctx t).1.pbar_n = ctx.pbar_n ∧
      (record_metrics ctx t).1.pbar_total = ctx.pbar_total ∧
      (record_metrics ctx t).1.max_exceptions = ctx.max_exceptions := by
  simp [record_metrics]

theorem resolveStep_pbar_total (s : GatherContext × GroupState)
    (o : RolloutOutcome) : (resolveStep s o).1.pbar_total = s.1.pbar_total := by
  obtain ⟨ctx, g⟩ := s
  by_cases h : g.aborted
  · rw [resolveStep_of_aborted _ _ _ h]
  · cases o with
    | success t =>
        simp [resolveStep, h, GatherContext.update_pbar, record_metrics]
    | failure e =>
        simp only [resolveStep, h, if_false, Bool.false_eq_true]
        split <;> simp [GatherContext.update_pbar]

theorem resolveStep_max_exceptions (s : GatherContext × GroupState)
    (o : RolloutOutcome) :
    (resolveStep s o).1.max_exceptions = s.1.max_exceptions := by
  obtain ⟨ctx, g⟩ := s
  by_cases h : g.aborted
  · rw [resolveStep_of_aborted _ _ _ h]
  · cases o with
    | success t =>
        simp [resolveStep, h, GatherContext.update_pbar, record_metrics]
    | failure e =>
        simp only [resolveStep, h, if_false, Bool.false_eq_true]
        split <;> simp [GatherContext.update_pbar]

theorem too_many_update_pbar (ctx : GatherContext) (n : ℕ) :
    ((ctx.update_pbar n).1).too_many_exceptions = ctx.too_many_exceptions :=
  rfl

/-- Equation for one failure step of a live group: the error is appended,
the `exceptions` counter is incremented, the progress bar is updated with
zero units, and the group aborts exactly when the budget check on the
post-increment context fires. -/
theorem resolveStep_failure_eq (ctx : GatherContext) (g : GroupState)
    (e : Exc) (h : g.aborted = false) :
    resolveStep (ctx, g) (.failure e) =
      ((({ ctx with
            metric_sums := counterAdd ctx.metric_sums "exceptions" (.i 1) } :
          GatherContext).update_pbar 0).1,
        { g with
            exceptions := g.exceptions ++ [e]
            aborted :=
              ({ ctx with
                  metric_sums :=
                    counterAdd ctx.metric_sums "exceptions" (.i 1) } :
                GatherContext).too_many_exceptions }) := by
  obtain ⟨gt, ge, gm, ga⟩ := g
  simp only at h
  subst h
  simp only [resolveStep, Bool.false_eq_true, if_false]
  rw [too_many_update_pbar]
  cases hb :
      ({ ctx with
          metric_sums := counterAdd ctx.metric_sums "exceptions" (.i 1) } :
        GatherContext).too_many_exceptions
  · simp [hb]
  · simp [hb]

/-- A displayed entry whose recorded divisor count is zero is the raw sum:
the divisor is clamped to 1, an `int` sum truncates to itself, and a
`float` sum divided by 1 is itself. -/
theorem displayedValue_zero_count (s : PyNum) : displayedValue s 0 = s := by
  cases s with
  | i z =>
      simp [displayedValue, pyTrunc, Int.floor_intCast]
  | f q =>
      simp [displayedValue]

/-- C10: for every context state and every key present in `metric_sums`,
the displayed running-average snapshot divides by `max(1, divisor)`, never
by zero; a key whose recorded count is zero (such as the implicit
`exceptions` counter, whose divisor is never incremented) is displayed as
its raw sum. -/
theorem c10_snapshot_divisor_clamped (ctx : GatherContext) (k : String)
    (s : PyNum) (h : dictGet? ctx.metric_sums k = some s) :
    dictGet? (pbarPostfix ctx) k =
        some (displayedValue s (counterGetNat ctx.metric_divisors k))
      ∧ 1 ≤ max 1 (counterGetNat ctx.metric_divisors k)
      ∧ (counterGetNat ctx.metric_divisors k = 0 →
          dictGet? (pbarPostfix ctx) k = some s) := by
  refine ⟨?_, le_max_left _ _, ?_⟩
  · rw [pbarPostfix_get, h]
    rfl
  · intro h0
    rw [pbarPostfix_get, h, h0]
    simp [displayedValue_zero_count]

/-- C10 witness: a context whose only sum entry is the `exceptions`
counter at 3 with no recorded divisor displays the raw count 3. -/
theorem c10_snapshot_divisor_clamped_witness :
    dictGet?
      (pbarPostfix
        { pbar_n := 0, pbar_total := 4
          metric_sums := [("exceptions", PyNum.i 3)], metric_divisors := []
          max_exceptions := 0 })
      "exceptions" = some (PyNum.i 3) :=
  (c10_snapshot_divisor_clamped
    { pbar_n := 0, pbar_total := 4
      metric_sums := [("exceptions", PyNum.i 3)], metric_divisors := []
      max_exceptions := 0 }
    "exceptions" (PyNum.i 3) rfl).2.2 rfl

/-- C9: constructing a `TrajectoryGroup` from already-resolved trajectories
is pure and deterministic — the ambient context passes through untouched,
the result does not depend on the context, and the group's content equals
the inputs, so repeated construction from the same list yields equal
groups. -/
theorem c9_construct_pure (ctx ctx' : GatherContext) (ts : List Trajectory)
    (m : PyDict MetadataValue) (e : List Exc) :
    (TrajectoryGroup.construct ctx ts m e).2 = ctx
      ∧ (TrajectoryGroup.construct ctx ts m e).1
          = (TrajectoryGroup.construct ctx' ts m e).1
      ∧ (TrajectoryGroup.construct ctx ts m e).1.trajectories = ts
      ∧ (TrajectoryGroup.construct ctx ts m e).1.metadata = m
      ∧ (TrajectoryGroup.construct ctx ts m e).1.exceptions = e :=
  ⟨rfl, rfl, rfl, rfl, rfl⟩

/-- C4 counterexample: at a concrete failing rollout (fresh context with
total 1, zero-tolerance budget, fresh group), the loop does not advance the
progress counter by one unit — `update_pbar` is called with `n=0`, so the
counter stays at 0 instead of becoming 1. -/
theorem c4_counterexample :
    (resolveStep (GatherContext.init 1 0, GroupState.start [] [])
        (.failure eBoom)).1.pbar_n ≠
      (GatherContext.init 1 0).pbar_n + 1 := by
  decide

/-- C4 (amended): on a rollout failure in a live group, the loop appends
the captured error to the group's exception list, increments the context's
`exceptions` counter, refreshes the progress display without advancing it
(`update_pbar` is called with zero units, so the progress counter is
unchanged), and then evaluates the exception budget on the
post-increment context. -/
theorem c4_failure_path (ctx : GatherContext) (g : GroupState) (e : Exc)
    (h : g.aborted = false) :
    (resolveStep (ctx, g) (.failure e)).2.exceptions = g.exceptions ++ [e]
      ∧ counterGet (resolveStep (ctx, g) (.failure e)).1.metric_sums
          "exceptions" = (counterGet ctx.metric_sums "exceptions").add (.i 1)
      ∧ (resolveStep (ctx, g) (.failure e)).1.pbar_n = ctx.pbar_n
      ∧ (resolveStep (ctx, g) (.failure e)).2.aborted
          = GatherContext.too_many_exceptions
              { ctx with
                  metric_sums :=
                    counterAdd ctx.metric_sums "exceptions" (.i 1) } := by
  rw [resolveStep_failure_eq ctx g e h]
  refine ⟨rfl, ?_, rfl, rfl⟩
  simp [GatherContext.update_pbar, counterGet_counterAdd_self]

/-- C4 witness: the amended failure-path behavior at a concrete input —
the error is appended and the progress counter stays at 0. -/
theorem c4_failure_path_witness :
    (resolveStep (GatherContext.init 1 0, GroupState.start [] [])
        (.failure eBoom)).2.exceptions = [eBoom]
      ∧ (resolveStep (GatherContext.init 1 0, GroupState.start [] [])
          (.failure eBoom)).1.pbar_n = 0 := by
  have h :=
    c4_failure_path (GatherContext.init 1 0) (GroupState.start [] []) eBoom rfl
  exact ⟨by simpa [GroupState.start] using h.1, by simpa using h.2.2.1⟩

/-- C8 counterexample: for a trajectory that carries log-prob data,
`record_metrics` does write a field of the trajectory — the returned
(mutated-in-place) trajectory differs from the input, its metrics map
having gained the derived `completion_tokens` key. -/
theorem c8_counterexample :
    (record_metrics (GatherContext.init 1 0) tLogprob).2 ≠ tLogprob := by
  intro h
  have hm := congrArg Trajectory.metrics h
  simp [record_metrics, deriveCompletionTokens, logprobsOf, tLogprob,
    dictSet] at hm

/-- C8 (amended): metric recording leaves the trajectory's `reward`,
`messages_and_choices` and `metadata` unchanged; when the trajectory
carries no log-prob data the whole trajectory is left unchanged, and when
it does, the only write is the derived `completion_tokens` entry stored
into the trajectory's metrics map. -/
theorem c8_record_frame (ctx : GatherContext) (t : Trajectory) :
    (record_metrics ctx t).2.reward = t.reward
      ∧ (record_metrics ctx t).2.messages_and_choices
          = t.messages_and_choices
      ∧ (record_metrics ctx t).2.metadata = t.metadata
      ∧ (logprobsOf t = [] → (record_metrics ctx t).2 = t)
      ∧ (logprobsOf t ≠ [] →
          (record_metrics ctx t).2.metrics
            = dictSet t.metrics "completion_tokens"
                ((((logprobsOf t).map ChoiceLogprobs.tokenLen).sum : ℚ)
                  / ((logprobsOf t).length : ℚ))) := by
  have h2 : (record_metrics ctx t).2 = deriveCompletionTokens t := rfl
  rw [h2]
  unfold deriveCompletionTokens
  by_cases hl : logprobsOf t = []
  · simp [hl]
  · simp [hl, List.isEmpty_iff]

/-- C8 witness: the amended statement at concrete inputs — a trajectory
with one log-prob-bearing choice of one token gains exactly the derived
`completion_tokens` entry, and a log-prob-free trajectory is returned
unchanged. -/
theorem c8_record_frame_witness :
    (record_metrics (GatherContext.init 1 0) tLogprob).2.metrics
        = [("completion_tokens", (1 : ℚ))]
      ∧ (record_metrics (GatherContext.init 1 0) (tPlain 1 [])).2
          = tPlain 1 [] := by
  constructor
  · have h :=
      (c8_record_frame (GatherContext.init 1 0) tLogprob).2.2.2.2
        (by simp [logprobsOf, tLogprob])
    rw [h]
    norm_num [logprobsOf, tLogprob, ChoiceLogprobs.tokenLen, dictSet,
      List.filterMap]
  · exact (c8_record_frame (GatherContext.init 1 0) (tPlain 1 [])).2.2.2.1
      (by simp [logprobsOf, tPlain])

/-! ## Progress totals (C7) -/

theorem gatherStep_pbar_total (s : GatherState) (ev : ℕ × RolloutOutcome) :
    (gatherStep s ev).ctx.pbar_total = s.ctx.pbar_total := by
  unfold gatherStep
  cases hg : s.groups.get? ev.1 with
  | none => rfl
  | some g => exact resolveStep_pbar_total (s.ctx, g) ev.2

theorem runGather_pbar_total (s : GatherState)
    (events : List (ℕ × RolloutOutcome)) :
    (runGather s events).ctx.pbar_total = s.ctx.pbar_total := by
  induction events generalizing s with
  | nil => rfl
  | cons ev evs ih =>
      rw [runGather, List.foldl_cons]
      rw [show (List.foldl gatherStep (gatherStep s ev) evs)
          = runGather (gatherStep s ev) evs from rfl]
      rw [ih (gatherStep s ev), gatherStep_pbar_total]

/-- C7: the overall progress denominator is computed before any resolution
begins, as the sum over input groups of the declared size (pending), the
actual size (already resolved), or one (a bare rollout coroutine counts as
a group of size one); in the present `gather_trajectories` code a bare
coroutine is wrapped as a one-element list and the total is the sum of the
group lengths; a run never changes the total; and two declared pending
groups of sizes 3 and 5 yield a total of 8. -/
theorem c7_progress_total (gs : List GTInput) (gs' : List GroupInput)
    (metas : List (PyDict MetadataValue × List Exc)) (total : ℕ)
    (maxExc : ℚ) (events : List (ℕ × RolloutOutcome)) :
    gatherTotal gs
        = (gs.map fun g =>
            match g with
            | .coro _ => 1
            | .iter l => l.length).sum
      ∧ gatherGroupsTotal gs'
          = (gs'.map fun g =>
              match g with
              | .pending outcomes => pendingNumTrajectories outcomes
              | .resolved tg => tg.trajectories.length
              | .rollout _ => 1).sum
      ∧ (gatherInit metas total maxExc).ctx.pbar_total = total
      ∧ (runGather (gatherInit metas total maxExc) events).ctx.pbar_total
          = total
      ∧ gatherGroupsTotal
          [.pending (List.replicate 3 (.failure eBoom)),
            .pending (List.replicate 5 (.failure eBoom))] = 8 := by
  have h1 : gatherTotal gs
      = (gs.map fun g =>
          match g with
          | GTInput.coro _ => 1
          | GTInput.iter l => l.length).sum := by
    unfold gatherTotal normalizeGroups
    rw [List.map_map]
    congr 1
    apply List.map_congr_left
    intro g _
    cases g <;> rfl
  have h2 : gatherGroupsTotal gs'
      = (gs'.map fun g =>
          match g with
          | GroupInput.pending outcomes => pendingNumTrajectories outcomes
          | GroupInput.resolved tg => tg.trajectories.length
          | GroupInput.rollout _ => 1).sum := by
    unfold gatherGroupsTotal
    congr 1
  have h4 :
      (runGather (gatherInit metas total maxExc) events).ctx.pbar_total
        = total :=
    (runGather_pbar_total _ _).trans rfl
  exact ⟨h1, h2, rfl, h4, rfl⟩

/-! ## Completion order (C5) -/

theorem resolveStep_of_aborted_pair (s : GatherContext × GroupState)
    (o : RolloutOutcome) (h : s.2.aborted = true) :
    resolveStep s o = s := by
  obtain ⟨ctx, g⟩ := s
  exact resolveStep_of_aborted ctx g o h

theorem foldl_resolveStep_of_aborted (s : GatherContext × GroupState)
    (outcomes : List RolloutOutcome) (h : s.2.aborted = true) :
    outcomes.foldl resolveStep s = s := by
  induction outcomes generalizing s with
  | nil => rfl
  | cons o os ih =>
      rw [List.foldl_cons, resolveStep_of_aborted_pair s o h, ih s h]

/-- Equation for one success step of a live group: the (possibly mutated)
trajectory is appended, metrics are recorded, and the progress bar advances
by one. -/
theorem resolveStep_success_eq (ctx : GatherContext) (g : GroupState)
    (t : Trajectory) (h : g.aborted = false) :
    resolveStep (ctx, g) (.success t) =
      (((record_metrics ctx t).1.update_pbar 1).1,
        { g with
            trajectories :=
              g.trajectories ++ [deriveCompletionTokens t] }) := by
  simp only [resolveStep, h, Bool.false_eq_true, if_false]
  rfl

/-- The trajectories collected by a resolution run that did not abort are
the input's initial list followed by the successful outcomes in processing
(completion) order, each as mutated by metric recording. -/
theorem foldl_resolveStep_trajectories (outcomes : List RolloutOutcome)
    (s : GatherContext × GroupState)
    (h : (outcomes.foldl resolveStep s).2.aborted = false) :
    (outcomes.foldl resolveStep s).2.trajectories
      = s.2.trajectories
        ++ (outcomes.filterMap RolloutOutcome.success?).map
            deriveCompletionTokens := by
  induction outcomes generalizing s with
  | nil => simp
  | cons o os ih =>
      rw [List.foldl_cons] at h ⊢
      by_cases hab : s.2.aborted = true
      · exfalso
        rw [resolveStep_of_aborted_pair s o hab,
          foldl_resolveStep_of_aborted s os hab] at h
        rw [h] at hab
        exact Bool.false_ne_true hab
      · have hab' : s.2.aborted = false := by
          exact Bool.not_eq_true _ |>.mp hab
        obtain ⟨ctx, g⟩ := s
        cases o with
        | success t =>
            rw [resolveStep_success_eq ctx g t hab'] at h ⊢
            rw [ih _ h]
            simp [List.filterMap_cons, RolloutOutcome.success?]
        | failure e =>
            rw [resolveStep_failure_eq ctx g e hab'] at h ⊢
            rw [ih _ h]
            simp [List.filterMap_cons, RolloutOutcome.success?]

/-- C5: when a pending group's rollouts all resolve without aborting the
group, the resulting trajectories list holds the successful trajectories in
completion order — the order `comp` in which the rollouts settled, any
permutation of the submission order `sub` — never in submission order. -/
theorem c5_completion_order (ctx : GatherContext)
    (meta : PyDict MetadataValue) (sub comp : List RolloutOutcome)
    (hperm : comp.Perm sub)
    (hdone : (resolveGroup ctx meta [] comp).2.aborted = false) :
    (resolveGroup ctx meta [] comp).2.trajectories
      = (comp.filterMap RolloutOutcome.success?).map
          deriveCompletionTokens := by
  unfold resolveGroup at hdone ⊢
  rw [foldl_resolveStep_trajectories comp _ hdone]
  simp [GroupState.start]

/-- C5 witness: two submitted rollouts finish in the opposite order; the
collected trajectories follow completion order, not submission order. -/
theorem c5_completion_order_witness :
    (resolveGroup (GatherContext.init 2 0) [] []
        [.success (tPlain 2 []), .success (tPlain 1 [])]).2.trajectories
      = [tPlain 2 [], tPlain 1 []] := by
  have h :=
    c5_completion_order (GatherContext.init 2 0) []
      [.success (tPlain 1 []), .success (tPlain 2 [])]
      [.success (tPlain 2 []), .success (tPlain 1 [])]
      (List.Perm.swap (RolloutOutcome.success (tPlain 1 []))
        (RolloutOutcome.success (tPlain 2 [])) [])
      (by decide)
  rw [h]
  simp [RolloutOutcome.success?, deriveCompletionTokens, logprobsOf, tPlain,
    List.filterMap]

/-! ## Group size invariant (C2) -/

/-- Each processed outcome contributes exactly one entry to exactly one of
the two lists: the combined length grows by exactly the number of outcomes
the run consumes. -/
theorem foldl_resolveStep_count (outcomes : List RolloutOutcome)
    (s : GatherContext × GroupState) :
    (outcomes.foldl resolveStep s).2.trajectories.length
        + (outcomes.foldl resolveStep s).2.exceptions.length
      = s.2.trajectories.length + s.2.exceptions.length
          + settledCount s outcomes := by
  induction outcomes generalizing s with
  | nil => simp [settledCount]
  | cons o os ih =>
      rw [List.foldl_cons]
      obtain ⟨ctx, g⟩ := s
      by_cases hab : g.aborted = true
      · rw [resolveStep_of_aborted ctx g o hab,
          foldl_resolveStep_of_aborted (ctx, g) os hab]
        simp [settledCount, hab]
      · have hab' : g.aborted = false := Bool.not_eq_true _ |>.mp hab
        cases o with
        | success t =>
            rw [resolveStep_success_eq ctx g t hab', ih]
            rw [show settledCount (ctx, g)
                (RolloutOutcome.success t :: os)
              = if g.aborted then 0
                else 1 + settledCount
                  (resolveStep (ctx, g) (.success t)) os from rfl]
            rw [resolveStep_success_eq ctx g t hab']
            simp [hab']
            omega
        | failure e =>
            rw [resolveStep_failure_eq ctx g e hab', ih]
            rw [show settledCount (ctx, g)
                (RolloutOutcome.failure e :: os)
              = if g.aborted then 0
                else 1 + settledCount
                  (resolveStep (ctx, g) (.failure e)) os from rfl]
            rw [resolveStep_failure_eq ctx g e hab']
            simp [hab']
            omega

theorem settledCount_le_length (s : GatherContext × GroupState)
    (outcomes : List RolloutOutcome) :
    settledCount s outcomes ≤ outcomes.length := by
  induction outcomes generalizing s with
  | nil => exact Nat.le_refl 0
  | cons o os ih =>
      unfold settledCount
      by_cases hab : s.2.aborted = true
      · simp [hab]
      · have hab' : s.2.aborted = false := Bool.not_eq_true _ |>.mp hab
        simp only [hab', Bool.false_eq_true, if_false, List.length_cons]
        have := ih (resolveStep s o)
        omega

theorem foldl_resolveStep_not_aborted_settled (outcomes : List RolloutOutcome)
    (s : GatherContext × GroupState)
    (h : (outcomes.foldl resolveStep s).2.aborted = false) :
    settledCount s outcomes = outcomes.length := by
  induction outcomes generalizing s with
  | nil => rfl
  | cons o os ih =>
      rw [List.foldl_cons] at h
      by_cases hab : s.2.aborted = true
      · exfalso
        rw [resolveStep_of_aborted_pair s o hab,
          foldl_resolveStep_of_aborted s os hab] at h
        rw [h] at hab
        exact Bool.false_ne_true hab
      · have hab' : s.2.aborted = false := Bool.not_eq_true _ |>.mp hab
        simp only [settledCount, hab', Bool.false_eq_true, if_false,
          List.length_cons]
        rw [ih _ h]
        omega

/-- C2 counterexample: a pending group may be constructed with a
pre-supplied exceptions list (`TrajectoryGroup.__new__`'s `exceptions`
parameter); resolving a one-rollout pending group that was given one
initial exception ends with `len(trajectories) + len(exceptions) = 2 > 1 =
num_trajectories`, so the claimed bound fails as stated. -/
theorem c2_counterexample :
    ¬ ((resolveGroup (GatherContext.init 1 0) [] [eBoom]
            [.success (tPlain 1 [])]).2.trajectories.length
          + (resolveGroup (GatherContext.init 1 0) [] [eBoom]
              [.success (tPlain 1 [])]).2.exceptions.length
        ≤ pendingNumTrajectories [.success (tPlain 1 [])]) := by
  decide

/-- C2 (amended): for a pending group constructed with the default empty
exceptions list, at every point during resolution
`len(trajectories) + len(exceptions)` equals the number of rollouts settled
so far — each settled rollout contributing exactly one entry to exactly one
list — and is at most the declared count `num_trajectories`; when the group
completes without aborting the sum equals `num_trajectories`, and when it
aborts it equals the number of rollouts settled before the abort. -/
theorem c2_group_size_invariant (ctx : GatherContext)
    (meta : PyDict MetadataValue) (outcomes : List RolloutOutcome) (j : ℕ) :
    ((outcomes.take j).foldl resolveStep
            (ctx, GroupState.start meta [])).2.trajectories.length
        + ((outcomes.take j).foldl resolveStep
            (ctx, GroupState.start meta [])).2.exceptions.length
        = settledCount (ctx, GroupState.start meta []) (outcomes.take j)
      ∧ settledCount (ctx, GroupState.start meta []) (outcomes.take j)
          ≤ pendingNumTrajectories outcomes
      ∧ ((resolveGroup ctx meta [] outcomes).2.aborted = false →
          (resolveGroup ctx meta [] outcomes).2.trajectories.length
              + (resolveGroup ctx meta [] outcomes).2.exceptions.length
            = pendingNumTrajectories outcomes) := by
  refine ⟨?_, ?_, ?_⟩
  · have h := foldl_resolveStep_count (outcomes.take j)
      (ctx, GroupState.start meta [])
    simpa [GroupState.start] using h
  · refine (settledCount_le_length _ _).trans ?_
    simpa [pendingNumTrajectories] using List.length_take_le j outcomes
  · intro h
    have h1 := foldl_resolveStep_count outcomes (ctx, GroupState.start meta [])
    have h2 := foldl_resolveStep_not_aborted_settled outcomes
      (ctx, GroupState.start meta []) h
    unfold resolveGroup
    rw [h1, h2]
    simp [GroupState.start, pendingNumTrajectories]

/-- C2 witness: a two-rollout group whose rollouts both succeed ends with
`len(trajectories) + len(exceptions) = 2 = num_trajectories`. -/
theorem c2_group_size_invariant_witness :
    (resolveGroup (GatherContext.init 2 0) [] []
          [.success (tPlain 1 []), .success (tPlain 2 [])]).2.trajectories.length
        + (resolveGroup (GatherContext.init 2 0) [] []
            [.success (tPlain 1 []), .success (tPlain 2 [])]).2.exceptions.length
      = pendingNumTrajectories
          [.success (tPlain 1 []), .success (tPlain 2 [])] :=
  (c2_group_size_invariant (GatherContext.init 2 0) []
      [.success (tPlain 1 []), .success (tPlain 2 [])] 0).2.2 (by decide)

/-! ## Metric aggregation (C3, C6) -/

theorem PyNum.toRat_add (a b : PyNum) :
    (a.add b).toRat = a.toRat + b.toRat := by
  cases a <;> cases b <;> simp [PyNum.add, PyNum.toRat]

theorem deriveCompletionTokens_reward (t : Trajectory) :
    (deriveCompletionTokens t).reward = t.reward := by
  by_cases h : (logprobsOf t).isEmpty
  · simp [deriveCompletionTokens, h]
  · simp [deriveCompletionTokens, h]

theorem dictGet?_eq_none_iff {α : Type} (d : PyDict α) (k : String) :
    dictGet? d k = none ↔ k ∉ dictKeys d := by
  induction d with
  | nil => simp [dictGet?, dictKeys]
  | cons kv rest ih =>
      simp only [dictKeys, List.map_cons, List.mem_cons]
      by_cases hk : kv.1 = k
      · simp only [dictGet?, if_pos hk]
        constructor
        · intro h
          exact Option.noConfusion h
        · intro h
          exact absurd (Or.inl hk.symm) h
      · simp only [dictGet?, if_neg hk]
        rw [ih]
        constructor
        · intro h hm
          rcases hm with hm | hm
          · exact hk hm.symm
          · exact h hm
        · intro h hm
          exact h (Or.inr hm)

theorem mem_dictKeys_of_dictGet? {α : Type} (d : PyDict α) (k : String)
    (v : α) (h : dictGet? d k = some v) : k ∈ dictKeys d := by
  by_contra hm
  rw [(dictGet?_eq_none_iff d k).mpr hm] at h
  exact Option.noConfusion h

theorem mem_dictKeys_dictSet {α : Type} (d : PyDict α) (k : String) (v : α)
    (k' : String) :
    k' ∈ dictKeys (dictSet d k v) ↔ k' ∈ dictKeys d ∨ k' = k := by
  induction d with
  | nil => simp [dictSet, dictKeys]
  | cons kv rest ih =>
      by_cases hk : kv.1 = k
      · subst hk
        simp only [dictSet, if_pos rfl]
        simp [dictKeys]
        tauto
      · simp only [dictSet, if_neg hk]
        simp [dictKeys] at ih ⊢
        tauto

theorem dictKeys_dictSet_nodup {α : Type} (d : PyDict α) (k : String)
    (v : α) (h : (dictKeys d).Nodup) :
    (dictKeys (dictSet d k v)).Nodup := by
  induction d with
  | nil => simp [dictSet, dictKeys]
  | cons kv rest ih =>
      simp only [dictKeys, List.map_cons, List.nodup_cons] at h
      by_cases hk : kv.1 = k
      · simp only [dictSet, if_pos hk]
        simp only [dictKeys, List.map_cons, List.nodup_cons]
        exact h
      · simp only [dictSet, if_neg hk]
        simp only [dictKeys, List.map_cons, List.nodup_cons]
        refine ⟨?_, ih h.2⟩
        intro hm
        rcases (mem_dictKeys_dictSet rest k v kv.1).mp hm with hm' | hm'
        · exact h.1 hm'
        · exact hk hm'

theorem deriveCompletionTokens_nodup (t : Trajectory)
    (h : (dictKeys t.metrics).Nodup) :
    (dictKeys (deriveCompletionTokens t).metrics).Nodup := by
  by_cases hl : (logprobsOf t).isEmpty
  · simpa [deriveCompletionTokens, hl] using h
  · simp only [deriveCompletionTokens, hl, Bool.false_eq_true, if_false]
    exact dictKeys_dictSet_nodup _ _ _ h

theorem dictGet?_deriveCompletionTokens_ne (t : Trajectory) (k : String)
    (hk : k ≠ "completion_tokens") :
    dictGet? (deriveCompletionTokens t).metrics k = dictGet? t.metrics k := by
  by_cases hl : (logprobsOf t).isEmpty
  · simp [deriveCompletionTokens, hl]
  · simp only [deriveCompletionTokens, hl, Bool.false_eq_true, if_false]
    exact dictGet?_dictSet_ne _ _ _ _ hk

theorem foldl_counterAdd_not_mem (m : PyDict ℚ) (sums : PyDict PyNum)
    (k : String) (h : k ∉ dictKeys m) :
    counterGet (m.foldl (fun s kv => counterAdd s kv.1 (.f kv.2)) sums) k
      = counterGet sums k := by
  induction m generalizing sums with
  | nil => rfl
  | cons kv rest ih =>
      have h1 : k ∉ dictKeys rest := by
        intro hm
        exact h (by simp [dictKeys] at hm ⊢; exact Or.inr hm)
      have h2 : k ≠ kv.1 := by
        intro he
        exact h (by simp [dictKeys, he])
      rw [List.foldl_cons, ih _ h1, counterGet_counterAdd_ne _ _ _ _ h2]

theorem foldl_counterAdd_get (m : PyDict ℚ) (sums : PyDict PyNum)
    (k : String) (hnd : (dictKeys m).Nodup) :
    counterGet (m.foldl (fun s kv => counterAdd s kv.1 (.f kv.2)) sums) k
      = (dictGet? m k).elim (counterGet sums k)
          (fun v => (counterGet sums k).add (.f v)) := by
  induction m generalizing sums with
  | nil => rfl
  | cons kv rest ih =>
      simp only [dictKeys, List.map_cons, List.nodup_cons] at hnd
      rw [List.foldl_cons]
      by_cases hk : kv.1 = k
      · subst hk
        rw [foldl_counterAdd_not_mem rest _ _ hnd.1,
          counterGet_counterAdd_self]
        simp [dictGet?]
      · rw [ih _ hnd.2,
          counterGet_counterAdd_ne _ _ _ _ fun he => hk he.symm]
        simp [dictGet?, hk]

theorem foldl_counterBump_not_mem (m : PyDict ℚ) (divs : PyDict ℕ)
    (k : String) (h : k ∉ dictKeys m) :
    counterGetNat (m.foldl (fun d kv => counterBump d kv.1) divs) k
      = counterGetNat divs k := by
  induction m generalizing divs with
  | nil => rfl
  | cons kv rest ih =>
      have h1 : k ∉ dictKeys rest := by
        intro hm
        exact h (by simp [dictKeys] at hm ⊢; exact Or.inr hm)
      have h2 : k ≠ kv.1 := by
        intro he
        exact h (by simp [dictKeys, he])
      rw [List.foldl_cons, ih _ h1, counterGetNat_counterBump_ne _ _ _ h2]

theorem foldl_counterBump_get (m : PyDict ℚ) (divs : PyDict ℕ)
    (k : String) (hnd : (dictKeys m).Nodup) :
    counterGetNat (m.foldl (fun d kv => counterBump d kv.1) divs) k
      = counterGetNat divs k + (if k ∈ dictKeys m then 1 else 0) := by
  induction m generalizing divs with
  | nil => simp [dictKeys]
  | cons kv rest ih =>
      simp only [dictKeys, List.map_cons, List.nodup_cons] at hnd
      rw [List.foldl_cons]
      by_cases hk : kv.1 = k
      · subst hk
        rw [foldl_counterBump_not_mem rest _ _ hnd.1,
          counterGetNat_counterBump_self]
        simp [dictKeys]
      · rw [ih _ hnd.2, counterGetNat_counterBump_ne _ _ _
          fun he => hk he.symm]
        simp only [dictKeys, List.map_cons, List.mem_cons]
        have hne : ¬ k = kv.1 := fun he => hk he.symm
        by_cases hm : k ∈ List.map Prod.fst rest
        · simp [hm]
        · simp [hm, hne]

theorem record_metrics_sums_eq (ctx : GatherContext) (t : Trajectory) :
    (record_metrics ctx t).1.metric_sums
      = (deriveCompletionTokens t).metrics.foldl
          (fun s kv => counterAdd s kv.1 (.f kv.2))
          (counterAdd ctx.metric_sums "reward"
            (.f (deriveCompletionTokens t).reward)) := rfl

theorem record_metrics_divs_eq (ctx : GatherContext) (t : Trajectory) :
    (record_metrics ctx t).1.metric_divisors
      = (deriveCompletionTokens t).metrics.foldl
          (fun d kv => counterBump d kv.1)
          (counterBump ctx.metric_divisors "reward") := rfl

/-- The effect of recording one trajectory on one `metric_sums` entry:
`reward` receives the trajectory's reward, any other key receives the value
it has (if any) in the trajectory's post-derivation metrics map. -/
theorem record_metrics_sums_entry (ctx : GatherContext) (t : Trajectory)
    (k : String) (hrt : dictGet? t.metrics "reward" = none)
    (hndt : (dictKeys t.metrics).Nodup) :
    counterGet (record_metrics ctx t).1.metric_sums k
      = ((if k = "reward" then some t.reward
          else dictGet? (deriveCompletionTokens t).metrics k).elim
          (counterGet ctx.metric_sums k)
          fun v => (counterGet ctx.metric_sums k).add (.f v)) := by
  rw [record_metrics_sums_eq,
    foldl_counterAdd_get _ _ _ (deriveCompletionTokens_nodup t hndt)]
  by_cases hk : k = "reward"
  · subst hk
    have hd : dictGet? (deriveCompletionTokens t).metrics "reward" = none := by
      rw [dictGet?_deriveCompletionTokens_ne t _ (by decide), hrt]
    rw [hd, counterGet_counterAdd_self, deriveCompletionTokens_reward]
    simp
  · rw [counterGet_counterAdd_ne _ _ _ _ hk]
    simp [hk]

/-- The effect of recording one trajectory on one `metric_divisors` entry:
`reward` always counts one, any other key counts one exactly when the
trajectory's post-derivation metrics map binds it. -/
theorem record_metrics_divs_entry (ctx : GatherContext) (t : Trajectory)
    (k : String) (hrt : dictGet? t.metrics "reward" = none)
    (hndt : (dictKeys t.metrics).Nodup) :
    counterGetNat (record_metrics ctx t).1.metric_divisors k
      = counterGetNat ctx.metric_divisors k
        + ((if k = "reward" then some t.reward
            else dictGet? (deriveCompletionTokens t).metrics k).elim 0
            fun _ => 1) := by
  rw [record_metrics_divs_eq,
    foldl_counterBump_get _ _ _ (deriveCompletionTokens_nodup t hndt)]
  by_cases hk : k = "reward"
  · subst hk
    have hd : dictGet? (deriveCompletionTokens t).metrics "reward" = none := by
      rw [dictGet?_deriveCompletionTokens_ne t _ (by decide), hrt]
    have hm : "reward" ∉ dictKeys (deriveCompletionTokens t).metrics :=
      (dictGet?_eq_none_iff _ _).mp hd
    rw [counterGetNat_counterBump_self]
    simp [hm]
  · rw [counterGetNat_counterBump_ne _ _ _ hk]
    by_cases hm : k ∈ dictKeys (deriveCompletionTokens t).metrics
    · have hv : ∃ v, dictGet? (deriveCompletionTokens t).metrics k
          = some v := by
        cases hd : dictGet? (deriveCompletionTokens t).metrics k with
        | none => exact absurd ((dictGet?_eq_none_iff _ _).mp hd) (by simp [hm])
        | some v => exact ⟨v, rfl⟩
      obtain ⟨v, hv⟩ := hv
      simp [hm, hv, hk]
    · rw [(dictGet?_eq_none_iff _ _).mpr hm]
      simp [hm, hk]

theorem foldl_addF_of_ne_nil (qs : List ℚ) (p : PyNum) (h : qs ≠ []) :
    qs.foldl (fun a q => a.add (.f q)) p = .f (p.toRat + qs.sum) := by
  induction qs generalizing p with
  | nil => exact absurd rfl h
  | cons q rest ih =>
      rw [List.foldl_cons]
      by_cases hr : rest = []
      · subst hr
        simp only [List.foldl_nil, List.sum_cons, List.sum_nil, add_zero]
        cases p <;> simp [PyNum.add, PyNum.toRat]
      · rw [ih _ hr, PyNum.toRat_add]
        rw [List.sum_cons]
        congr 1
        show p.toRat + (PyNum.f q).toRat + rest.sum = p.toRat + (q + rest.sum)
        rw [show (PyNum.f q).toRat = q from rfl]
        ring

theorem reportedValues_cons (k : String) (t : Trajectory)
    (rest : List Trajectory) :
    reportedValues k (t :: rest)
      = (if k = "reward" then some t.reward
          else dictGet? (deriveCompletionTokens t).metrics k).toList
        ++ reportedValues k rest := by
  unfold reportedValues
  rw [List.filterMap_cons]
  cases hopt : (if k = "reward" then some t.reward
      else dictGet? (deriveCompletionTokens t).metrics k) with
  | none => simp [hopt]
  | some v => simp [hopt]

/-- The `metric_sums` entry of a key after recording a sequence of
trajectories is the running addition of the values the key receives, in
order. -/
theorem recordFold_sums_get (ts : List Trajectory) (ctx : GatherContext)
    (k : String) (hr : ∀ t ∈ ts, dictGet? t.metrics "reward" = none)
    (hnd : ∀ t ∈ ts, (dictKeys t.metrics).Nodup) :
    counterGet (recordFold ctx ts).metric_sums k
      = (reportedValues k ts).foldl (fun p q => p.add (.f q))
          (counterGet ctx.metric_sums k) := by
  induction ts generalizing ctx with
  | nil => rfl
  | cons t rest ih =>
      rw [show recordFold ctx (t :: rest)
          = recordFold (record_metrics ctx t).1 rest from rfl]
      rw [ih _ (fun t' ht' => hr t' (List.mem_cons_of_mem _ ht'))
        (fun t' ht' => hnd t' (List.mem_cons_of_mem _ ht'))]
      rw [record_metrics_sums_entry ctx t k
        (hr t (List.mem_cons_self t rest))
        (hnd t (List.mem_cons_self t rest))]
      rw [reportedValues_cons, List.foldl_append]
      congr 1
      cases hopt : (if k = "reward" then some t.reward
          else dictGet? (deriveCompletionTokens t).metrics k) with
      | none => simp
      | some v => simp

/-- The `metric_divisors` entry of a key after recording a sequence of
trajectories counts exactly the trajectories that reported the key. -/
theorem recordFold_divs_get (ts : List Trajectory) (ctx : GatherContext)
    (k : String) (hr : ∀ t ∈ ts, dictGet? t.metrics "reward" = none)
    (hnd : ∀ t ∈ ts, (dictKeys t.metrics).Nodup) :
    counterGetNat (recordFold ctx ts).metric_divisors k
      = counterGetNat ctx.metric_divisors k
        + (reportedValues k ts).length := by
  induction ts generalizing ctx with
  | nil => rfl
  | cons t rest ih =>
      rw [show recordFold ctx (t :: rest)
          = recordFold (record_metrics ctx t).1 rest from rfl]
      rw [ih _ (fun t' ht' => hr t' (List.mem_cons_of_mem _ ht'))
        (fun t' ht' => hnd t' (List.mem_cons_of_mem _ ht'))]
      rw [record_metrics_divs_entry ctx t k
        (hr t (List.mem_cons_self t rest))
        (hnd t (List.mem_cons_self t rest))]
      rw [reportedValues_cons, List.length_append]
      cases hopt : (if k = "reward" then some t.reward
          else dictGet? (deriveCompletionTokens t).metrics k) with
      | none => simp
      | some v => simp [Nat.add_assoc, Nat.add_comm 1 _]

theorem dictGet?_of_counterGet_f (c : PyDict PyNum) (k : String) (q : ℚ)
    (h : counterGet c k = .f q) : dictGet? c k = some (.f q) := by
  unfold counterGet at h
  cases hd : dictGet? c k with
  | none =>
      rw [hd] at h
      exact absurd h (by simp)
  | some v =>
      rw [hd] at h
      simp at h
      rw [h]

/-- C3: after recording any sequence of trajectories into a fresh context,
the displayed running average for a metric key is the sum of the key's
values over only the trajectories that carry the key, divided by the number
of trajectories that carry it — never by the total number of trajectories.
(`reward` is carried by every trajectory through its reward field; the
hypotheses say no trajectory doubles it as an explicit metric and that each
metrics dict has unique keys, as Python dicts do.) -/
theorem c3_partial_metric_average (ts : List Trajectory) (k : String)
    (total : ℕ) (maxExc : ℚ)
    (hr : ∀ t ∈ ts, dictGet? t.metrics "reward" = none)
    (hnd : ∀ t ∈ ts, (dictKeys t.metrics).Nodup)
    (hk : reportedValues k ts ≠ []) :
    dictGet?
        (pbarPostfix (recordFold (GatherContext.init total maxExc) ts)) k
      = some (.f ((reportedValues k ts).sum
          / ((reportedValues k ts).length : ℚ))) := by
  have hsum :
      counterGet
          (recordFold (GatherContext.init total maxExc) ts).metric_sums k
        = .f (reportedValues k ts).sum := by
    rw [recordFold_sums_get ts _ k hr hnd, foldl_addF_of_ne_nil _ _ hk]
    norm_num [GatherContext.init, counterGet, dictGet?, PyNum.toRat]
  have hdiv :
      counterGetNat
          (recordFold (GatherContext.init total maxExc) ts).metric_divisors
          k
        = (reportedValues k ts).length := by
    rw [recordFold_divs_get ts _ k hr hnd]
    norm_num [GatherContext.init, counterGetNat, dictGet?]
  rw [pbarPostfix_get, dictGet?_of_counterGet_f _ _ _ hsum, hdiv]
  have hlen : 1 ≤ (reportedValues k ts).length :=
    List.length_pos.mpr hk
  simp [displayedValue, Nat.max_eq_right hlen]

/-- C3 witness: three trajectories of which only two report `steps`, with
values 4 and 6; the displayed running average for `steps` is 5, not 10/3. -/
theorem c3_partial_metric_average_witness :
    dictGet?
        (pbarPostfix
          (recordFold (GatherContext.init 3 0)
            [tPlain 1 [("steps", 4)], tPlain 0 [("steps", 6)],
              tPlain (1/2) []]))
        "steps" = some (.f 5) := by
  have h :=
    c3_partial_metric_average
      [tPlain 1 [("steps", 4)], tPlain 0 [("steps", 6)], tPlain (1/2) []]
      "steps" 3 0
      (by intro t ht
          fin_cases ht <;> simp [tPlain, dictGet?])
      (by intro t ht
          fin_cases ht <;> simp [tPlain, dictKeys])
      (by decide)
  have hrv : reportedValues "steps"
      [tPlain 1 [("steps", 4)], tPlain 0 [("steps", 6)], tPlain (1/2) []]
      = [4, 6] := by decide
  rw [h, hrv]
  norm_num

/-- C6: when a resolved trajectory carries token-level log-prob data,
metric recording first stores, under the reserved `completion_tokens` key
in the trajectory's own metrics map, the sum of token counts over the
log-prob-bearing entries divided by their number, and then aggregates that
value like any other metric (one addition to its sum, one count to its
divisor); a trajectory with no log-prob-bearing entries is left unchanged
and gets no derived metric. -/
theorem c6_derived_completion_tokens (ctx : GatherContext) (t : Trajectory)
    (hnd : (dictKeys t.metrics).Nodup) :
    (logprobsOf t ≠ [] →
        dictGet? (record_metrics ctx t).2.metrics "completion_tokens"
            = some ((((logprobsOf t).map ChoiceLogprobs.tokenLen).sum : ℚ)
                / ((logprobsOf t).length : ℚ))
          ∧ counterGet (record_metrics ctx t).1.metric_sums
              "completion_tokens"
            = (counterGet ctx.metric_sums "completion_tokens").add
                (.f ((((logprobsOf t).map ChoiceLogprobs.tokenLen).sum : ℚ)
                  / ((logprobsOf t).length : ℚ)))
          ∧ counterGetNat (record_metrics ctx t).1.metric_divisors
              "completion_tokens"
            = counterGetNat ctx.metric_divisors "completion_tokens" + 1)
      ∧ (logprobsOf t = [] → (record_metrics ctx t).2 = t) := by
  constructor
  · intro hl
    have hne : ¬ (logprobsOf t).isEmpty := by
      simpa [List.isEmpty_iff] using hl
    have hmet : (deriveCompletionTokens t).metrics
        = dictSet t.metrics "completion_tokens"
            ((((logprobsOf t).map ChoiceLogprobs.tokenLen).sum : ℚ)
              / ((logprobsOf t).length : ℚ)) := by
      simp [deriveCompletionTokens, hne]
    have hv : dictGet? (deriveCompletionTokens t).metrics
        "completion_tokens"
        = some ((((logprobsOf t).map ChoiceLogprobs.tokenLen).sum : ℚ)
            / ((logprobsOf t).length : ℚ)) := by
      rw [hmet]
      exact dictGet?_dictSet_self _ _ _
    refine ⟨hv, ?_, ?_⟩
    · rw [record_metrics_sums_eq,
        foldl_counterAdd_get _ _ _ (deriveCompletionTokens_nodup t hnd),
        hv, counterGet_counterAdd_ne _ _ _ _ (by decide)]
      simp
    · rw [record_metrics_divs_eq,
        foldl_counterBump_get _ _ _ (deriveCompletionTokens_nodup t hnd),
        counterGetNat_counterBump_ne _ _ _ (by decide)]
      have hm : "completion_tokens"
          ∈ dictKeys (deriveCompletionTokens t).metrics :=
        mem_dictKeys_of_dictGet? _ _ _ hv
      simp [hm]
  · intro hl
    show deriveCompletionTokens t = t
    simp [deriveCompletionTokens, hl]

/-- C6 witness: the trajectory with one log-prob-bearing choice of one
token gets `completion_tokens = 1` stored and aggregated, and a trajectory
without log-prob data is returned unchanged. -/
theorem c6_derived_completion_tokens_witness :
    dictGet? (record_metrics (GatherContext.init 1 0) tLogprob).2.metrics
        "completion_tokens" = some 1
      ∧ (record_metrics (GatherContext.init 1 0) (tPlain 1 [])).2
          = tPlain 1 [] := by
  constructor
  · have h :=
      ((c6_derived_completion_tokens (GatherContext.init 1 0) tLogprob
          (by simp [tLogprob, dictKeys])).1
        (by simp [logprobsOf, tLogprob, List.filterMap])).1
    rw [h]
    norm_num [logprobsOf, tLogprob, ChoiceLogprobs.tokenLen, List.filterMap]
  · exact
      (c6_derived_completion_tokens (GatherContext.init 1 0) (tPlain 1 [])
          (by simp [tPlain, dictKeys])).2
        (by simp [logprobsOf, tPlain, List.filterMap])

/-! ## Zero-tolerance budget and gather results (C1) -/

theorem lt_of_get?_eq_some {α : Type} (l : List α) (i : ℕ) (a : α)
    (h : l.get? i = some a) : i < l.length := by
  by_contra hge
  rw [List.get?_eq_none.mpr (Nat.le_of_not_lt hge)] at h
  exact Option.noConfusion h

theorem list_eq_take_cons_drop {α : Type} (l : List α) (i : ℕ) (g : α)
    (h : l.get? i = some g) :
    l = l.take i ++ g :: l.drop (i + 1) := by
  induction l generalizing i with
  | nil => exact Option.noConfusion h
  | cons a rest ih =>
      cases i with
      | zero =>
          simp only [List.get?] at h
          injection h with h
          simp [h]
      | succ n =>
          simp only [List.get?] at h
          have hrec := ih n h
          simp only [List.take_succ_cons, List.drop_succ_cons,
            List.cons_append]
          exact congrArg (a :: ·) hrec

/-- Equation for `gatherStep` when the event's index addresses an existing group. -/
theorem gatherStep_eq_of_get (s : GatherState) (ev : ℕ × RolloutOutcome)
    (g₀ : GroupState) (hg : s.groups.get? ev.1 = some g₀) :
    gatherStep s ev =
      { ctx := (resolveStep (s.ctx, g₀) ev.2).1
        groups := s.groups.set ev.1 (resolveStep (s.ctx, g₀) ev.2).2 } := by
  unfold gatherStep
  rw [hg]

/-- Equation for `gatherStep` when the event's index addresses no group. -/
theorem gatherStep_eq_of_none (s : GatherState) (ev : ℕ × RolloutOutcome)
    (hg : s.groups.get? ev.1 = none) : gatherStep s ev = s := by
  unfold gatherStep
  rw [hg]

theorem gatherStep_groups_length (s : GatherState)
    (ev : ℕ × RolloutOutcome) :
    (gatherStep s ev).groups.length = s.groups.length := by
  cases hg : s.groups.get? ev.1 with
  | none => rw [gatherStep_eq_of_none s ev hg]
  | some g => rw [gatherStep_eq_of_get s ev g hg]; simp

theorem runGather_groups_length (events : List (ℕ × RolloutOutcome))
    (s : GatherState) :
    (runGather s events).groups.length = s.groups.length := by
  induction events generalizing s with
  | nil => rfl
  | cons ev evs ih =>
      rw [runGather, List.foldl_cons,
        show List.foldl gatherStep (gatherStep s ev) evs
          = runGather (gatherStep s ev) evs from rfl,
        ih (gatherStep s ev), gatherStep_groups_length]

theorem gatherStep_max_exceptions (s : GatherState)
    (ev : ℕ × RolloutOutcome) :
    (gatherStep s ev).ctx.max_exceptions = s.ctx.max_exceptions := by
  cases hg : s.groups.get? ev.1 with
  | none => rw [gatherStep_eq_of_none s ev hg]
  | some g =>
      rw [gatherStep_eq_of_get s ev g hg]
      exact resolveStep_max_exceptions (s.ctx, g) ev.2

theorem runGather_max_exceptions (events : List (ℕ × RolloutOutcome))
    (s : GatherState) :
    (runGather s events).ctx.max_exceptions = s.ctx.max_exceptions := by
  induction events generalizing s with
  | nil => rfl
  | cons ev evs ih =>
      rw [runGather, List.foldl_cons,
        show List.foldl gatherStep (gatherStep s ev) evs
          = runGather (gatherStep s ev) evs from rfl,
        ih (gatherStep s ev), gatherStep_max_exceptions]

/-- Recording a trajectory that carries no `exceptions` metric key leaves
the `exceptions` counter entry unchanged. -/
theorem record_metrics_exceptions_entry (ctx : GatherContext)
    (t : Trajectory) (h : dictGet? t.metrics "exceptions" = none) :
    counterGet (record_metrics ctx t).1.metric_sums "exceptions"
      = counterGet ctx.metric_sums "exceptions" := by
  rw [record_metrics_sums_eq]
  have hm : "exceptions" ∉ dictKeys (deriveCompletionTokens t).metrics := by
    rw [← dictGet?_eq_none_iff,
      dictGet?_deriveCompletionTokens_ne t _ (by decide), h]
  rw [foldl_counterAdd_not_mem _ _ _ hm,
    counterGet_counterAdd_ne _ _ _ _ (by decide)]

theorem gatherStep_exceptions_int (s : GatherState)
    (ev : ℕ × RolloutOutcome)
    (hclean : ∀ t : Trajectory, ev.2 = RolloutOutcome.success t →
      dictGet? t.metrics "exceptions" = none)
    (hint : ∃ n : ℕ,
      counterGet s.ctx.metric_sums "exceptions" = .i (n : ℤ)) :
    ∃ n : ℕ,
      counterGet (gatherStep s ev).ctx.metric_sums "exceptions"
        = .i (n : ℤ) := by
  obtain ⟨n, hn⟩ := hint
  cases hg : s.groups.get? ev.1 with
  | none => exact ⟨n, by rw [gatherStep_eq_of_none s ev hg]; exact hn⟩
  | some g =>
      rw [gatherStep_eq_of_get s ev g hg]
      by_cases hab : g.aborted = true
      · rw [resolveStep_of_aborted _ _ _ hab]
        exact ⟨n, hn⟩
      · have hab' : g.aborted = false := Bool.not_eq_true _ |>.mp hab
        cases ho : ev.2 with
        | success t =>
            rw [resolveStep_success_eq _ _ _ hab']
            exact ⟨n, by
              rw [show (((record_metrics s.ctx t).1.update_pbar 1).1).metric_sums
                  = (record_metrics s.ctx t).1.metric_sums from rfl]
              rw [record_metrics_exceptions_entry _ _ (hclean t ho)]
              exact hn⟩
        | failure e =>
            rw [resolveStep_failure_eq _ _ _ hab']
            refine ⟨n + 1, ?_⟩
            rw [show ((({ s.ctx with
                  metric_sums :=
                    counterAdd s.ctx.metric_sums "exceptions" (.i 1) } :
                GatherContext).update_pbar 0).1).metric_sums
              = counterAdd s.ctx.metric_sums "exceptions" (.i 1) from rfl]
            rw [counterGet_counterAdd_self, hn]
            show PyNum.i ((n : ℤ) + 1) = PyNum.i ((n + 1 : ℕ) : ℤ)
            push_cast
            rfl

theorem runGather_exceptions_int (events : List (ℕ × RolloutOutcome))
    (s : GatherState)
    (hclean : ∀ ev ∈ events, ∀ t : Trajectory,
      ev.2 = RolloutOutcome.success t →
      dictGet? t.metrics "exceptions" = none)
    (hint : ∃ n : ℕ,
      counterGet s.ctx.metric_sums "exceptions" = .i (n : ℤ)) :
    ∃ n : ℕ,
      counterGet (runGather s events).ctx.metric_sums "exceptions"
        = .i (n : ℤ) := by
  induction events generalizing s with
  | nil => exact hint
  | cons ev evs ih =>
      rw [runGather, List.foldl_cons,
        show List.foldl gatherStep (gatherStep s ev) evs
          = runGather (gatherStep s ev) evs from rfl]
      exact ih (gatherStep s ev)
        (fun ev' hm => hclean ev' (List.mem_cons_of_mem _ hm))
        (gatherStep_exceptions_int s ev
          (hclean ev (List.mem_cons_self ev evs)) hint)

/-- With a zero budget, any positive integer exception count makes the
budget check fire. -/
theorem too_many_of_succ_int (ctx : GatherContext) (n : ℕ)
    (hmax : ctx.max_exceptions = 0)
    (h : counterGet ctx.metric_sums "exceptions" = .i ((n : ℤ) + 1)) :
    ctx.too_many_exceptions = true := by
  unfold GatherContext.too_many_exceptions
  rw [hmax, h]
  rw [if_neg (by norm_num)]
  simp only [PyNum.toRat, decide_eq_true_eq]
  push_cast
  positivity

/-- A failure event for a live, existing group under a zero budget aborts
that group in the very step that processes the failure. -/
theorem gatherStep_failure_aborts (s : GatherState) (i : ℕ) (e : Exc)
    (hmax : s.ctx.max_exceptions = 0)
    (hint : ∃ n : ℕ,
      counterGet s.ctx.metric_sums "exceptions" = .i (n : ℤ))
    (hi : i < s.groups.length) :
    ∃ g, (gatherStep s (i, RolloutOutcome.failure e)).groups.get? i
        = some g ∧ g.aborted = true := by
  obtain ⟨n, hn⟩ := hint
  obtain ⟨g₀, hg₀⟩ : ∃ g₀, s.groups.get? i = some g₀ := by
    cases hg : s.groups.get? i with
    | none =>
        exact absurd (List.get?_eq_none.mp hg) (Nat.not_le_of_lt hi)
    | some g => exact ⟨g, rfl⟩
  rw [gatherStep_eq_of_get s (i, RolloutOutcome.failure e) g₀ hg₀]
  refine ⟨(resolveStep (s.ctx, g₀) (RolloutOutcome.failure e)).2, ?_, ?_⟩
  · exact List.get?_set_eq_of_lt _ hi
  · by_cases hab : g₀.aborted = true
    · rw [resolveStep_of_aborted _ _ _ hab]
      exact hab
    · have hab' : g₀.aborted = false := Bool.not_eq_true _ |>.mp hab
      rw [resolveStep_failure_eq _ _ _ hab']
      apply too_many_of_succ_int _ n
      · exact hmax
      · rw [show ({ s.ctx with
            metric_sums :=
              counterAdd s.ctx.metric_sums "exceptions" (.i 1) } :
          GatherContext).metric_sums
          = counterAdd s.ctx.metric_sums "exceptions" (.i 1) from rfl]
        rw [counterGet_counterAdd_self, hn]
        rfl

/-- Once a group is aborted it stays aborted through any further event. -/
theorem gatherStep_aborted_mono (s : GatherState) (ev : ℕ × RolloutOutcome)
    (i : ℕ) (g : GroupState) (hg : s.groups.get? i = some g)
    (hab : g.aborted = true) :
    ∃ g', (gatherStep s ev).groups.get? i = some g'
      ∧ g'.aborted = true := by
  cases hge : s.groups.get? ev.1 with
  | none => exact ⟨g, by rw [gatherStep_eq_of_none s ev hge]; exact hg, hab⟩
  | some g₁ =>
      rw [gatherStep_eq_of_get s ev g₁ hge]
      by_cases hij : ev.1 = i
      · subst hij
        rw [hge] at hg
        injection hg with hg
        have hab₁ : g₁.aborted = true := by rw [hg]; exact hab
        refine ⟨g₁, ?_, hab₁⟩
        rw [resolveStep_of_aborted_pair _ _ hab₁]
        exact List.get?_set_eq_of_lt _ (lt_of_get?_eq_some _ _ _ hge)
      · exact ⟨g, by rw [List.get?_set_ne _ _ hij]; exact hg, hab⟩

theorem runGather_aborted_mono (events : List (ℕ × RolloutOutcome))
    (s : GatherState) (i : ℕ) (g : GroupState)
    (hg : s.groups.get? i = some g) (hab : g.aborted = true) :
    ∃ g', (runGather s events).groups.get? i = some g'
      ∧ g'.aborted = true := by
  induction events generalizing s g with
  | nil => exact ⟨g, hg, hab⟩
  | cons ev evs ih =>
      rw [runGather, List.foldl_cons,
        show List.foldl gatherStep (gatherStep s ev) evs
          = runGather (gatherStep s ev) evs from rfl]
      obtain ⟨g', hg', hab'⟩ := gatherStep_aborted_mono s ev i g hg hab
      exact ih (gatherStep s ev) g' hg' hab'

/-- A group that no failure event ever targets never aborts and collects
exactly its own success events, in arrival order. -/
theorem runGather_no_failure_for (events : List (ℕ × RolloutOutcome))
    (j : ℕ) (hnf : ∀ e : Exc, (j, RolloutOutcome.failure e) ∉ events)
    (s : GatherState) (g : GroupState)
    (hg : s.groups.get? j = some g) (hab : g.aborted = false) :
    (runGather s events).groups.get? j
      = some { g with
          trajectories := g.trajectories
            ++ (((events.filter fun ev => ev.1 = j).map Prod.snd).filterMap
                RolloutOutcome.success?).map deriveCompletionTokens } := by
  induction events generalizing s g with
  | nil =>
      simp only [runGather, List.foldl_nil, List.filter_nil, List.map_nil,
        List.filterMap_nil, List.append_nil]
      rw [hg]
  | cons ev evs ih =>
      have hnf' : ∀ e : Exc, (j, RolloutOutcome.failure e) ∉ evs :=
        fun e hm => hnf e (List.mem_cons_of_mem _ hm)
      obtain ⟨i, o⟩ := ev
      rw [runGather, List.foldl_cons,
        show List.foldl gatherStep (gatherStep s (i, o)) evs
          = runGather (gatherStep s (i, o)) evs from rfl]
      by_cases hij : i = j
      · subst hij
        cases o with
        | failure e => exact absurd (List.mem_cons_self _ _) (hnf e)
        | success t =>
            have hlt : i < s.groups.length := lt_of_get?_eq_some _ _ _ hg
            rw [gatherStep_eq_of_get s (i, RolloutOutcome.success t) g hg,
              resolveStep_success_eq s.ctx g t hab]
            dsimp only
            have hg' :
                (s.groups.set i
                    { g with
                        trajectories :=
                          g.trajectories
                            ++ [deriveCompletionTokens t] }).get? i
                  = some { g with
                      trajectories :=
                        g.trajectories ++ [deriveCompletionTokens t] } :=
              List.get?_set_eq_of_lt _ hlt
            rw [ih hnf' _
              { g with
                  trajectories :=
                    g.trajectories ++ [deriveCompletionTokens t] }
              hg' hab]
            congr 2
            rw [List.filter_cons_of_pos (by simp)]
            simp [RolloutOutcome.success?, List.filterMap_cons]
      · cases hge : s.groups.get? i with
        | none =>
            rw [gatherStep_eq_of_none s (i, o) hge, ih hnf' _ _ hg hab]
            congr 3
            rw [List.filter_cons_of_neg (by simp [hij])]
        | some g₁ =>
            rw [gatherStep_eq_of_get s (i, o) g₁ hge]
            dsimp only
            have hg' :
                (s.groups.set i (resolveStep (s.ctx, g₁) o).2).get? j
                  = some g := by
              rw [List.get?_set_ne _ _ hij]
              exact hg
            rw [ih hnf' _ _ hg' hab]
            congr 3
            rw [List.filter_cons_of_neg (by simp [hij])]

/-- An aborted group is omitted from the returned list: the result is the
concatenation of the results over the groups before it and after it, with
no placeholder in between. -/
theorem gatherResult_of_aborted (s : GatherState) (i : ℕ) (g : GroupState)
    (hg : s.groups.get? i = some g) (hab : g.aborted = true) :
    gatherResult s
      = gatherResult { s with groups := s.groups.take i }
        ++ gatherResult { s with groups := s.groups.drop (i + 1) } := by
  unfold gatherResult
  conv_lhs => rw [list_eq_take_cons_drop s.groups i g hg]
  rw [List.filterMap_append, List.filterMap_cons]
  simp [hab]

/-- A terminal non-aborted group appears, with its collected content, in
the returned list. -/
theorem mem_gatherResult_of_not_aborted (s : GatherState) (j : ℕ)
    (g : GroupState) (hg : s.groups.get? j = some g)
    (hab : g.aborted = false) :
    ({ trajectories := g.trajectories, metadata := g.metadata
       exceptions := g.exceptions } : TrajectoryGroup)
      ∈ gatherResult s := by
  unfold gatherResult
  apply List.mem_filterMap.mpr
  refine ⟨g, List.get?_mem hg, ?_⟩
  simp [hab]

/-- C1: in a gather call with `max_exceptions = 0` (the default), any
single rollout failure aborts its containing group in the very step that
processes the failure, the aborted group is omitted from the returned list
(the result is exactly the results over the groups before and after it),
and every group no failure event ever targets stays live and is returned
intact — with all its successes, no exceptions and its own metadata. -/
theorem c1_zero_tolerance (metas : List (PyDict MetadataValue)) (total : ℕ)
    (events : List (ℕ × RolloutOutcome))
    (init final : GatherState)
    (hclean : ∀ ev ∈ events, ∀ t : Trajectory,
      ev.2 = RolloutOutcome.success t →
      dictGet? t.metrics "exceptions" = none)
    (hinit : init
      = gatherInit (metas.map fun m => (m, ([] : List Exc))) total 0)
    (hfinal : final = runGather init events) :
    (∀ (evs₁ evs₂ : List (ℕ × RolloutOutcome)) (i : ℕ) (e : Exc),
        events = evs₁ ++ (i, RolloutOutcome.failure e) :: evs₂ →
        i < metas.length →
        (∃ g, (runGather init
              (evs₁ ++ [(i, RolloutOutcome.failure e)])).groups.get? i
            = some g ∧ g.aborted = true)
          ∧ ∃ g, final.groups.get? i = some g ∧ g.aborted = true
              ∧ gatherResult final
                = gatherResult
                    { final with groups := final.groups.take i }
                  ++ gatherResult
                    { final with groups := final.groups.drop (i + 1) })
      ∧ ∀ (j : ℕ) (mj : PyDict MetadataValue), metas.get? j = some mj →
          (∀ e : Exc, (j, RolloutOutcome.failure e) ∉ events) →
          ∃ g, final.groups.get? j = some g
            ∧ g.aborted = false
            ∧ g.trajectories
                = (((events.filter fun ev => ev.1 = j).map
                    Prod.snd).filterMap RolloutOutcome.success?).map
                    deriveCompletionTokens
            ∧ g.exceptions = []
            ∧ g.metadata = mj
            ∧ ({ trajectories := g.trajectories, metadata := mj,
                  exceptions := [] } : TrajectoryGroup)
                ∈ gatherResult final := by
  subst hinit
  subst hfinal
  constructor
  · intro evs₁ evs₂ i e hev hi
    have hml :
        (gatherInit (metas.map fun m => (m, ([] : List Exc))) total
            0).groups.length = metas.length := by
      simp [gatherInit]
    have hclean₁ : ∀ ev ∈ evs₁, ∀ t : Trajectory,
        ev.2 = RolloutOutcome.success t →
        dictGet? t.metrics "exceptions" = none :=
      fun ev hm => hclean ev (by rw [hev]; exact List.mem_append_left _ hm)
    have hint₁ := runGather_exceptions_int evs₁
      (gatherInit (metas.map fun m => (m, ([] : List Exc))) total 0)
      hclean₁ ⟨0, rfl⟩
    have hmax₁ :
        (runGather
            (gatherInit (metas.map fun m => (m, ([] : List Exc))) total 0)
            evs₁).ctx.max_exceptions = 0 := by
      rw [runGather_max_exceptions]
      rfl
    have hlen₁ :
        (runGather
            (gatherInit (metas.map fun m => (m, ([] : List Exc))) total 0)
            evs₁).groups.length = metas.length := by
      rw [runGather_groups_length]
      exact hml
    have step := gatherStep_failure_aborts
      (runGather
        (gatherInit (metas.map fun m => (m, ([] : List Exc))) total 0)
        evs₁) i e hmax₁ hint₁ (by rw [hlen₁]; exact hi)
    have heq : runGather
        (gatherInit (metas.map fun m => (m, ([] : List Exc))) total 0)
        (evs₁ ++ [(i, RolloutOutcome.failure e)])
      = gatherStep
          (runGather
            (gatherInit (metas.map fun m => (m, ([] : List Exc))) total 0)
            evs₁) (i, RolloutOutcome.failure e) := by
      rw [runGather, List.foldl_append]
      rfl
    constructor
    · rw [heq]
      exact step
    · obtain ⟨g, hgget, hgab⟩ := step
      have hfin : runGather
          (gatherInit (metas.map fun m => (m, ([] : List Exc))) total 0)
          events
        = runGather
            (gatherStep
              (runGather
                (gatherInit (metas.map fun m => (m, ([] : List Exc)))
                  total 0) evs₁) (i, RolloutOutcome.failure e)) evs₂ := by
        rw [hev, ← heq]
        rw [show evs₁ ++ (i, RolloutOutcome.failure e) :: evs₂
          = (evs₁ ++ [(i, RolloutOutcome.failure e)]) ++ evs₂ by
            simp]
        rw [runGather, runGather, List.foldl_append]
        rfl
      obtain ⟨g', hg', hab'⟩ :=
        runGather_aborted_mono evs₂ _ i g hgget hgab
      refine ⟨g', by rw [hfin]; exact hg', hab', ?_⟩
      exact gatherResult_of_aborted _ i g'
        (by rw [hfin]; exact hg') hab'
  · intro j mj hmj hnf
    have hginit :
        (gatherInit (metas.map fun m => (m, ([] : List Exc))) total
            0).groups.get? j = some (GroupState.start mj []) := by
      show ((metas.map fun m => (m, ([] : List Exc))).map
          fun m => GroupState.start m.1 m.2).get? j
        = some (GroupState.start mj [])
      rw [List.get?_map, List.get?_map, hmj]
      rfl
    have h := runGather_no_failure_for events j hnf _ _ hginit rfl
    refine ⟨_, h, rfl, ?_, rfl, rfl, ?_⟩
    · show (GroupState.start mj []).trajectories ++ _ = _
      rw [show (GroupState.start mj []).trajectories = [] from rfl,
        List.nil_append]
    · exact mem_gatherResult_of_not_aborted _ j _ h rfl

/-- C1 witness: two groups, zero budget; group 0's single rollout fails and
group 0 ends aborted, while group 1's rollout succeeds and group 1 is
returned intact with its one trajectory. -/
theorem c1_zero_tolerance_witness :
    (∃ g, (runGather
          (gatherInit [(([] : PyDict MetadataValue), ([] : List Exc)),
            ([], [])] 2 0)
          [(0, RolloutOutcome.failure eBoom),
            (1, RolloutOutcome.success (tPlain 1 []))]).groups.get? 0
        = some g ∧ g.aborted = true)
      ∧ ({ trajectories := [tPlain 1 []], metadata := [],
            exceptions := [] } : TrajectoryGroup)
          ∈ gatherResult
              (runGather
                (gatherInit [(([] : PyDict MetadataValue), ([] : List Exc)),
                  ([], [])] 2 0)
                [(0, RolloutOutcome.failure eBoom),
                  (1, RolloutOutcome.success (tPlain 1 []))]) := by
  have h := c1_zero_tolerance [[], []] 2
    [(0, RolloutOutcome.failure eBoom),
      (1, RolloutOutcome.success (tPlain 1 []))]
    (gatherInit [(([] : PyDict MetadataValue), ([] : List Exc)),
      ([], [])] 2 0)
    (runGather
      (gatherInit [(([] : PyDict MetadataValue), ([] : List Exc)),
        ([], [])] 2 0)
      [(0, RolloutOutcome.failure eBoom),
        (1, RolloutOutcome.success (tPlain 1 []))])
    (by
      intro ev hm t ht
      rcases List.mem_cons.mp hm with h1 | h2
      · subst h1
        exact RolloutOutcome.noConfusion ht
      · rcases List.mem_cons.mp h2 with h1 | h3
        · subst h1
          injection ht with ht
          rw [← ht]
          rfl
        · exact absurd h3 (List.not_mem_nil _))
    rfl rfl
  constructor
  · obtain ⟨g, hg, hab, _⟩ :=
      (h.1 [] [(1, RolloutOutcome.success (tPlain 1 []))] 0 eBoom rfl
        (by decide)).2
    exact ⟨g, hg, hab⟩
  · obtain ⟨g, hg, hab, htraj, hexc, hmeta, hmem⟩ :=
      h.2 1 [] rfl
        (by
          intro e hm
          rcases List.mem_cons.mp hm with h1 | h2
          · have h10 : (1 : ℕ) = 0 := congrArg Prod.fst h1
            exact absurd h10 (by decide)
          · rcases List.mem_cons.mp h2 with h1 | h3
            · exact RolloutOutcome.noConfusion (congrArg Prod.snd h1)
            · exact absurd h3 (List.not_mem_nil _))
    have hX :
        ((([(0, RolloutOutcome.failure eBoom),
            (1, RolloutOutcome.success (tPlain 1 []))].filter
              fun ev => ev.1 = 1).map Prod.snd).filterMap
            RolloutOutcome.success?).map deriveCompletionTokens
          = [tPlain 1 []] := by decide
    rw [htraj, hX] at hmem
    exact hmem
